import Mathlib

/-!
Shallow embedding of the script-herder layered-configuration core
(src/core/src/config and src/core/src/infra) together with proofs about it.

The embedding mirrors the Rust source:
* `JValue` models serde_json::Value (numbers restricted to integers and
  strings without escape sequences; no claim under study involves
  floating-point numbers or escaped strings),
* `ConfigIo` models the two ConfigIO implementations (ConfigFile/ConfigData),
* `ConfigJson`, `ConfigEnv`, `Config` model the three source variants,
* `PriorityProvider` models the sparse integer-keyed collection,
* `ConfigProvider` models the resolver, `AppConfig` the bootstrap,
* `Path` models the PathBuf operations used by the repo-path redirection.

Rust panics (serde_json's IndexMut on a non-object, non-null root) are
modelled as `Option.none` results; fallible operations return
`Except String`.
-/

namespace ScriptHerder

/-- JSON value tree mirroring serde_json::Value. Objects are association
lists of fields in insertion order; serde_json's Map::insert replaces the
value of an existing key, which `insertField` below reproduces. -/
inductive JValue where
  | null : JValue
  | bool (b : Bool) : JValue
  | num (n : Int) : JValue
  | str (s : String) : JValue
  | arr (items : List JValue) : JValue
  | obj (fields : List (String × JValue)) : JValue

/-- serde_json::Map::get on the field list of an object. -/
def getField : List (String × JValue) → String → Option JValue
  | [], _ => Option.none
  | (k, v) :: rest, key => if k = key then some v else getField rest key

/-- serde_json::Map::insert: replace the value of an existing key, otherwise
add the binding. -/
def insertField : List (String × JValue) → String → JValue → List (String × JValue)
  | [], key, v => [(key, v)]
  | (k, w) :: rest, key, v =>
    if k = key then (k, v) :: rest else (k, w) :: insertField rest key v

/-- serde_json::Value::get with a string index: a value only for object
roots. -/
def JValue.get : JValue → String → Option JValue
  | .obj fields, key => getField fields key
  | _, _ => Option.none

/-- serde_json's IndexMut<&str> assignment `v[key] = value`: a null root is
replaced by a fresh object, an object root receives the binding, and any
other root makes serde_json panic, modelled as `Option.none`. -/
def JValue.indexSet : JValue → String → JValue → Option JValue
  | .null, key, v => some (.obj [(key, v)])
  | .obj fields, key, v => some (.obj (insertField fields key v))
  | _, _, _ => Option.none

/-! JSON text handling: a recursive-descent parser (serde_json::from_str) and
a renderer (serde_json::to_string_pretty, rendered compactly here — no claim
depends on the exact layout of the serialized text). -/

/-- Skip JSON whitespace. -/
def skipWs : List Char → List Char
  | c :: cs => if c = ' ' ∨ c = '\n' ∨ c = '\t' ∨ c = '\r' then skipWs cs else c :: cs
  | [] => []

/-- Parse the remainder of a JSON string literal after the opening quote.
Escape sequences are outside the modelled fragment and rejected. -/
def parseStringRest : List Char → Option (String × List Char)
  | [] => Option.none
  | c :: cs =>
    if c = '"' then some ("", cs)
    else if c = '\\' then Option.none
    else match parseStringRest cs with
      | some (s, rest) => some (String.mk (c :: s.data), rest)
      | Option.none => Option.none

/-- Decimal digit test. -/
def isDigit (c : Char) : Bool := '0' ≤ c ∧ c ≤ '9'

/-- Consume a run of digits, accumulating their value. -/
def digitsVal : List Char → Nat → Nat × List Char
  | c :: cs, acc =>
    if isDigit c then digitsVal cs (acc * 10 + (c.toNat - '0'.toNat)) else (acc, c :: cs)
  | [], acc => (acc, [])

/-- Parse an integer JSON number (optionally negative). -/
def parseNum : List Char → Option (JValue × List Char)
  | '-' :: c :: cs =>
    if isDigit c then
      let r := digitsVal cs (c.toNat - '0'.toNat)
      some (.num (-(r.1 : Int)), r.2)
    else Option.none
  | c :: cs =>
    if isDigit c then
      let r := digitsVal cs (c.toNat - '0'.toNat)
      some (.num (r.1 : Int), r.2)
    else Option.none
  | [] => Option.none

mutual

/-- Parse one JSON value; `fuel` bounds the recursion depth. -/
def parseVal (fuel : Nat) (cs : List Char) : Option (JValue × List Char) :=
  match fuel with
  | 0 => Option.none
  | fuel + 1 =>
    match skipWs cs with
    | 'n' :: 'u' :: 'l' :: 'l' :: rest => some (.null, rest)
    | 't' :: 'r' :: 'u' :: 'e' :: rest => some (.bool true, rest)
    | 'f' :: 'a' :: 'l' :: 's' :: 'e' :: rest => some (.bool false, rest)
    | '"' :: rest =>
      (match parseStringRest rest with
       | some (s, r) => some (.str s, r)
       | Option.none => Option.none)
    | '[' :: rest =>
      (match skipWs rest with
       | ']' :: r => some (.arr [], r)
       | other =>
         match parseArrItems fuel other with
         | some (items, r) => some (.arr items, r)
         | Option.none => Option.none)
    | '\x7b' :: rest =>
      (match skipWs rest with
       | '\x7d' :: r => some (.obj [], r)
       | other =>
         match parseObjItems fuel other [] with
         | some (fields, r) => some (.obj fields, r)
         | Option.none => Option.none)
    | other => parseNum other

/-- Parse the comma-separated items of a non-empty JSON array. -/
def parseArrItems (fuel : Nat) (cs : List Char) : Option (List JValue × List Char) :=
  match fuel with
  | 0 => Option.none
  | fuel + 1 =>
    match parseVal fuel cs with
    | some (v, rest) =>
      (match skipWs rest with
       | ',' :: r =>
         (match parseArrItems fuel r with
          | some (vs, r2) => some (v :: vs, r2)
          | Option.none => Option.none)
       | ']' :: r => some ([v], r)
       | _ => Option.none)
    | Option.none => Option.none

/-- Parse the members of a non-empty JSON object; duplicate keys replace
earlier values as serde_json's Map::insert does. -/
def parseObjItems (fuel : Nat) (cs : List Char) (acc : List (String × JValue)) :
    Option (List (String × JValue) × List Char) :=
  match fuel with
  | 0 => Option.none
  | fuel + 1 =>
    match skipWs cs with
    | '"' :: rest =>
      (match parseStringRest rest with
       | some (k, r1) =>
         (match skipWs r1 with
          | ':' :: r2 =>
            (match parseVal fuel r2 with
             | some (v, r3) =>
               (match skipWs r3 with
                | ',' :: r4 => parseObjItems fuel r4 (insertField acc k v)
                | '\x7d' :: r4 => some (insertField acc k v, r4)
                | _ => Option.none)
             | Option.none => Option.none)
          | _ => Option.none)
       | Option.none => Option.none)
    | _ => Option.none

end

/-- serde_json::from_str: parse a complete JSON document. -/
def parseJson (s : String) : Option JValue :=
  match parseVal (s.length + 1) s.data with
  | some (v, rest) =>
    (match skipWs rest with
     | [] => some v
     | _ => Option.none)
  | Option.none => Option.none

mutual

/-- serde_json serialization of a value (compact rendering; only the fact
that serialization always succeeds matters to the claims). -/
def renderVal : JValue → String
  | .null => "null"
  | .bool true => "true"
  | .bool false => "false"
  | .num n => toString n
  | .str s => "\"" ++ s ++ "\""
  | .arr items => "[" ++ renderList items ++ "]"
  | .obj fields => "\x7b" ++ renderFields fields ++ "\x7d"

/-- Render array items, comma separated. -/
def renderList : List JValue → String
  | [] => ""
  | [x] => renderVal x
  | x :: y :: xs => renderVal x ++ "," ++ renderList (y :: xs)

/-- Render object members, comma separated. -/
def renderFields : List (String × JValue) → String
  | [] => ""
  | [(k, v)] => "\"" ++ k ++ "\":" ++ renderVal v
  | (k, v) :: y :: xs => "\"" ++ k ++ "\":" ++ renderVal v ++ "," ++ renderFields (y :: xs)

end

/-- The two ConfigIO implementations of src/core/src/infra/io.rs: a file
(whose contents may be absent, making reads fail, and whose writes the
filesystem may forbid) and an in-memory buffer (reads and writes always
succeed). -/
inductive ConfigIo where
  | file (contents : Option String) (writable : Bool)
  | data (d : String)

/-- ConfigIO::read. -/
def ConfigIo.read : ConfigIo → Except String String
  | .file (some s) _ => .ok s
  | .file Option.none _ => .error "io read failed"
  | .data d => .ok d

/-- ConfigIO::write: returns the updated backing store. -/
def ConfigIo.write : ConfigIo → String → Except String ConfigIo
  | .file _ true, s => .ok (.file (some s) true)
  | .file _ false, _ => .error "io write failed"
  | .data _, s => .ok (.data s)

/-- ConfigJson of src/core/src/config/config_json.rs. -/
structure ConfigJson where
  io : ConfigIo
  data : Option JValue
  can_write : Bool
  is_synced : Bool

/-- ConfigJson::new. -/
def ConfigJson.new (io : ConfigIo) (can_write : Bool) : ConfigJson :=
  ⟨io, Option.none, can_write, false⟩

/-- ConfigJson::load: read the backing text and parse it; on success the
parsed tree replaces `data`. The source does not touch `is_synced` here. -/
def ConfigJson.load (c : ConfigJson) : Except String ConfigJson :=
  match c.io.read with
  | .error e => .error e
  | .ok content =>
    match parseJson content with
    | some v => .ok { c with data := some v }
    | Option.none => .error "json parse error"

/-- ConfigJson::from_file: a writable document backed by a file, loaded
immediately. The file's state (contents, writability) stands in for the
path argument of the source. -/
def ConfigJson.from_file (contents : Option String) (writable : Bool) :
    Except String ConfigJson :=
  (ConfigJson.new (.file contents writable) true).load

/-- ConfigJson::from_data: a read-only document backed by an in-memory
buffer; after a successful load the source explicitly sets is_synced. -/
def ConfigJson.from_data (d : String) : Except String ConfigJson :=
  match (ConfigJson.new (.data d) false).load with
  | .ok cfg => .ok { cfg with is_synced := true }
  | .error e => .error e

/-- ConfigJson::is_loaded. -/
def ConfigJson.is_loaded (c : ConfigJson) : Bool := c.data.isSome

/-- ConfigJson::get_value: look the key up in the tree; a stored JSON null
is reported as absent. -/
def ConfigJson.get_value (c : ConfigJson) (key : String) : Option JValue :=
  match c.data with
  | some d =>
    (match d.get key with
     | some .null => Option.none
     | some v => some v
     | Option.none => Option.none)
  | Option.none => Option.none

/-- ConfigJson::set_value: `data[key] = value` when a tree exists (panic on
a non-object, non-null root, modelled as `Option.none`), otherwise create a
fresh one-field object; either way mark the document unsynced. -/
def ConfigJson.set_value (c : ConfigJson) (key : String) (v : JValue) :
    Option ConfigJson :=
  match c.data with
  | some d =>
    (d.indexSet key v).map fun d' => { c with data := some d', is_synced := false }
  | Option.none =>
    some { c with data := some (.obj [(key, v)]), is_synced := false }

/-- ConfigJson::save: reject non-writable documents, succeed as a no-op when
nothing was ever loaded or set, otherwise serialize and write, marking the
document synced. -/
def ConfigJson.save (c : ConfigJson) : Except String ConfigJson :=
  if !c.can_write then .error "Cannot write to this source"
  else
    match c.data with
    | Option.none => .ok c
    | some d =>
      match c.io.write (renderVal d) with
      | .ok io' => .ok { c with io := io', is_synced := true }
      | .error e => .error e

/-- ConfigJson::get for a concrete deserialization target: get_value then
serde_json::from_value, the latter abstracted as a decoding function that
may fail (type mismatch is reported as absence). -/
def ConfigJson.getTyped {α : Type} (c : ConfigJson) (dec : JValue → Option α)
    (key : String) : Option α :=
  match c.get_value key with
  | some v => dec v
  | Option.none => Option.none

/-- serde deserialization into String succeeds exactly on JSON strings. -/
def decodeString : JValue → Option String
  | .str s => some s
  | _ => Option.none

/-- ConfigJson::get::<String>. -/
def ConfigJson.getString (c : ConfigJson) (key : String) : Option String :=
  c.getTyped decodeString key

/-- The process environment, passed explicitly to the embedding in place of
the ambient std::env::var state. -/
abbrev EnvMap := String → Option String

/-- An environment with no variables set. -/
def emptyEnv : EnvMap := fun _ => Option.none

/-- ConfigEnv of src/core/src/config/config_env.rs. The source field named
after the key-prefixing string is called `pfx` here because its Rust name is
a reserved word in Lean. -/
structure ConfigEnv where
  use_config : Bool
  pfx : Option String

/-- ConfigEnv::get_key: format!("\x7b\x7d_\x7b\x7d", prefix, key) places an
underscore between the stored prefixing string and the key. -/
def ConfigEnv.get_key (c : ConfigEnv) (key : String) : String :=
  match c.pfx with
  | some p => p ++ "_" ++ key
  | Option.none => key

/-- ConfigEnv::get_value: look the prefixed name up in the environment. -/
def ConfigEnv.get_value (c : ConfigEnv) (envm : EnvMap) (key : String) :
    Option String :=
  if c.use_config then envm (c.get_key key) else Option.none

/-- ConfigEnv::get for a concrete FromStr target, the parse abstracted as a
function that may fail. -/
def ConfigEnv.get {α : Type} (c : ConfigEnv) (parse : String → Option α)
    (envm : EnvMap) (key : String) : Option α :=
  match c.get_value envm key with
  | some v => parse v
  | Option.none => Option.none

/-- String::parse::<String> never fails. -/
def parseStringId : String → Option String := fun s => some s

/-- ConfigEnv::get::<String>. -/
def ConfigEnv.getString (c : ConfigEnv) (envm : EnvMap) (key : String) :
    Option String :=
  c.get parseStringId envm key

/-- The Config union of src/core/src/config/mod.rs: JSON document,
environment source, or absent scope. -/
inductive Config where
  | json (src : ConfigJson)
  | env (src : ConfigEnv)
  | none

/-- Config::get_value: dispatch to the active variant; environment values
are wrapped as JSON strings. -/
def Config.get_value (c : Config) (envm : EnvMap) (key : String) : Option JValue :=
  match c with
  | .json src => src.get_value key
  | .env src => (src.get_value envm key).map JValue.str
  | .none => Option.none

/-- Config::get::<String>. -/
def Config.getString (c : Config) (envm : EnvMap) (key : String) : Option String :=
  match c with
  | .json src => src.getString key
  | .env src => src.getString envm key
  | .none => Option.none

/-- Discriminator used by ConfigProvider's write routing. -/
def Config.isJson : Config → Bool
  | .json _ => true
  | _ => false

/-- HashMap::get on the keyed provider collection. -/
def lookupKey {T : Type} : List (Int × T) → Int → Option T
  | [], _ => Option.none
  | (k', v) :: rest, k => if k' = k then some v else lookupKey rest k

/-- HashMap::insert: replace the value at an existing key or add the
binding. -/
def insertAssoc {T : Type} : List (Int × T) → Int → T → List (Int × T)
  | [], k, v => [(k, v)]
  | (k', v') :: rest, k, v =>
    if k' = k then (k', v) :: rest else (k', v') :: insertAssoc rest k v

/-- In-place replacement of the value stored at a key (the effect of
mutating through first_mut / get_mut). -/
def replaceValueAt {T : Type} : List (Int × T) → Int → T → List (Int × T)
  | [], _, _ => []
  | (k', v') :: rest, k, x =>
    if k' = k then (k', x) :: replaceValueAt rest k x
    else (k', v') :: replaceValueAt rest k x

/-- PriorityProvider of src/core/src/infra/priority_provider.rs. The
HashMap/HashSet pair of the source is modelled as one association list whose
key set is kept duplicate-free by insertAssoc; `PriorityProvider.Wf` states
that invariant. -/
structure PriorityProvider (T : Type) where
  providers : List (Int × T)
  lowest_priority : Int
  upper_priority : Int

/-- PriorityProvider::new. -/
def PriorityProvider.new {T : Type} : PriorityProvider T := ⟨[], 0, 0⟩

/-- The HashMap invariant: each priority key occurs at most once. -/
def PriorityProvider.Wf {T : Type} (pp : PriorityProvider T) : Prop :=
  (pp.providers.map Prod.fst).Nodup

/-- PriorityProvider::set_at: overwrite-or-create at a key, updating the
tracked extreme priorities. -/
def PriorityProvider.set_at {T : Type} (pp : PriorityProvider T) (pos : Int)
    (x : T) : PriorityProvider T :=
  { providers := insertAssoc pp.providers pos x
    lowest_priority := if pos < pp.lowest_priority then pos else pp.lowest_priority
    upper_priority := if pos > pp.upper_priority then pos else pp.upper_priority }

/-- PriorityProvider::add: insert at upper_priority + 1. -/
def PriorityProvider.add {T : Type} (pp : PriorityProvider T) (x : T) :
    PriorityProvider T :=
  pp.set_at (pp.upper_priority + 1) x

/-- PriorityProvider::add_top: insert at lowest_priority - 1. -/
def PriorityProvider.add_top {T : Type} (pp : PriorityProvider T) (x : T) :
    PriorityProvider T :=
  pp.set_at (pp.lowest_priority - 1) x

/-- The priority keys in ascending order, as the iterator sorts them. -/
def PriorityProvider.sortedKeys {T : Type} (pp : PriorityProvider T) : List Int :=
  (pp.providers.map Prod.fst).insertionSort (· ≤ ·)

/-- PriorityProviderIterator: the items visited in ascending key order. -/
def PriorityProvider.iterItems {T : Type} (pp : PriorityProvider T) : List T :=
  pp.sortedKeys.filterMap (lookupKey pp.providers)

/-- PriorityProvider::map_first: first non-absent result of the function in
ascending key order. -/
def PriorityProvider.map_first {T U : Type} (pp : PriorityProvider T)
    (f : T → Option U) : Option U :=
  pp.iterItems.findSome? f

/-- The key selected by PriorityProvider::first_mut: the first key in
ascending order whose item satisfies the predicate. -/
def PriorityProvider.firstKeyMatching {T : Type} (pp : PriorityProvider T)
    (pred : T → Bool) : Option Int :=
  pp.sortedKeys.find? fun k =>
    match lookupKey pp.providers k with
    | some t => pred t
    | Option.none => false

/-- ConfigProvider of src/core/src/config/provider.rs. -/
structure ConfigProvider where
  providers : PriorityProvider Config

/-- ConfigProvider::new. -/
def ConfigProvider.new : ConfigProvider := ⟨PriorityProvider.new⟩

/-- ConfigProvider::register_top. -/
def ConfigProvider.register_top (cp : ConfigProvider) (c : Config) : ConfigProvider :=
  ⟨cp.providers.add_top c⟩

/-- ConfigProvider::register_default. -/
def ConfigProvider.register_default (cp : ConfigProvider) (c : Config) : ConfigProvider :=
  ⟨cp.providers.add c⟩

/-- ConfigProvider::get_value: merged raw read, first source with a value
wins. -/
def ConfigProvider.get_value (cp : ConfigProvider) (envm : EnvMap) (key : String) :
    Option JValue :=
  cp.providers.map_first fun p => p.get_value envm key

/-- ConfigProvider::get::<String>: merged typed read. -/
def ConfigProvider.getString (cp : ConfigProvider) (envm : EnvMap) (key : String) :
    Option String :=
  cp.providers.map_first fun p => p.getString envm key

/-- ConfigProvider::set_value: route the write to the first JSON source in
ascending key order; without one the write is silently dropped.
`Option.none` propagates the panic of ConfigJson::set_value. -/
def ConfigProvider.set_value (cp : ConfigProvider) (key : String) (v : JValue) :
    Option ConfigProvider :=
  match cp.providers.firstKeyMatching Config.isJson with
  | some k =>
    (match lookupKey cp.providers.providers k with
     | some (.json src) =>
       (match src.set_value key v with
        | some src' =>
          some ⟨{ cp.providers with
                  providers := replaceValueAt cp.providers.providers k (.json src') }⟩
        | Option.none => Option.none)
     | _ => some cp)
  | Option.none => some cp

/-- The per-source decision inside ConfigProvider::sync: a JSON document is
saved exactly when it is unsynced and writable; everything else contributes
no outcome. -/
def Config.syncOutcome : Config → Option (Except String Unit)
  | .json src =>
    if !src.is_synced && src.can_write then
      some
        (match src.save with
         | .ok _ => .ok ()
         | .error e => .error e)
    else Option.none
  | _ => Option.none

/-- The traversal of ConfigProvider::sync: visit the sources in ascending
key order, saving each unsynced writable JSON document and collecting the
outcomes in visit order. -/
def syncFold : List Int → List (Int × Config) → List (Int × Config) × List (Except String Unit)
  | [], l => (l, [])
  | k :: ks, l =>
    match lookupKey l k with
    | some (.json src) =>
      if !src.is_synced && src.can_write then
        match src.save with
        | .ok src' =>
          let r := syncFold ks (replaceValueAt l k (.json src'))
          (r.1, .ok () :: r.2)
        | .error e =>
          let r := syncFold ks l
          (r.1, .error e :: r.2)
      else syncFold ks l
    | _ => syncFold ks l

/-- ConfigProvider::sync: returns the updated resolver and the ordered
outcome sequence. -/
def ConfigProvider.sync (cp : ConfigProvider) :
    ConfigProvider × List (Except String Unit) :=
  let r := syncFold cp.providers.sortedKeys cp.providers.providers
  (⟨⟨r.1, cp.providers.lowest_priority, cp.providers.upper_priority⟩⟩, r.2)

/-- PathBuf, modelled as an absolute-flag plus the list of components the
textual path mentions; no normalization happens at this level, exactly as
with PathBuf. -/
structure Path where
  absolute : Bool
  components : List String

/-- Split the character stream of a path at slashes. -/
def splitSlashes : List Char → List Char → List String
  | [], acc => if acc.isEmpty then [] else [String.mk acc.reverse]
  | c :: cs, acc =>
    if c = '/' then
      if acc.isEmpty then splitSlashes cs [] else String.mk acc.reverse :: splitSlashes cs []
    else splitSlashes cs (c :: acc)

/-- PathBuf::from on a textual path. -/
def parsePath (s : String) : Path :=
  { absolute := (match s.data with | '/' :: _ => true | _ => false)
    components := splitSlashes s.data [] }

/-- Path::is_relative. -/
def Path.is_relative (p : Path) : Bool := !p.absolute

/-- Path::parent: strip the last component; the root and the empty path have
no parent. -/
def Path.parent : Path → Option Path
  | ⟨_, []⟩ => Option.none
  | ⟨abs, c :: cs⟩ => some ⟨abs, (c :: cs).dropLast⟩

/-- Path::join: an absolute argument replaces the path, otherwise the
components are appended without normalization. -/
def Path.join (p q : Path) : Path :=
  if q.absolute then q else ⟨p.absolute, p.components ++ q.components⟩

/-- The directory a path denotes on a symlink-free filesystem: dot
components vanish and dot-dot removes the preceding component. Not part of
the Rust source; used only to state which directory a non-normalized
PathBuf refers to. -/
def Path.normalize (p : Path) : Path :=
  ⟨p.absolute,
   p.components.foldl
     (fun acc c =>
       if c = "." then acc
       else if c = ".." then acc.dropLast
       else acc ++ [c])
     []⟩

/-- The KnownConfigs enumeration of src/core/src/config/mod.rs. -/
inductive KnownConfigs where
  | RepoPath
  | GitUser
  | GitEmail
  | LogLevel

/-- KnownConfigs::to_str. -/
def KnownConfigs.to_str : KnownConfigs → String
  | .RepoPath => "core.repo.path"
  | .GitUser => "core.git.user"
  | .GitEmail => "core.git.email"
  | .LogLevel => "core.log.level"

/-- AppConfig of src/core/src/config/mod.rs: the resolver plus the
canonicalized machine-config-file path. -/
structure AppConfig where
  provider : ConfigProvider
  root : Path

/-- AppConfig::use_env: register an environment source with the fixed
prefixing string SH_ on top of everything registered so far. -/
def AppConfig.use_env (a : AppConfig) : AppConfig :=
  { a with provider := a.provider.register_top (Config.env ⟨true, some "SH_"⟩) }

/-- AppConfig::internal_get_repo_path: parse the stored project path; a
relative one is joined onto the machine config file's parent directory (the
file itself when it has no parent). -/
def internal_get_repo_path (path : Option String) (root_file : Path) : Option Path :=
  match path.map parsePath with
  | some p =>
    if p.is_relative then
      let root :=
        match root_file.parent with
        | some e => e
        | Option.none => root_file
      some (root.join p)
    else some p
  | Option.none => Option.none

/-- The path-resolution step of AppConfig::create_repo_config: read the
project-path key from the machine document (typed, as a string) and resolve
it; the directory-creation side effects are outside the model. -/
def create_repo_config_path (machine_config : ConfigJson) (root : Path) : Option Path :=
  internal_get_repo_path (machine_config.getString KnownConfigs.RepoPath.to_str) root

end ScriptHerder

namespace ScriptHerder

/-! Generic lemmas about the association-list and iteration primitives. -/

theorem lookupKey_mem {T : Type} {l : List (Int × T)} {k : Int} {t : T}
    (h : lookupKey l k = some t) : k ∈ l.map Prod.fst := by
  induction l with
  | nil => simp [lookupKey] at h
  | cons p rest ih =>
    obtain ⟨k', v⟩ := p
    by_cases hk : k' = k
    · subst hk; simp
    · simp only [lookupKey, if_neg hk] at h
      simp [ih h]

theorem lookupKey_insertAssoc_self {T : Type} (l : List (Int × T)) (k : Int) (v : T) :
    lookupKey (insertAssoc l k v) k = some v := by
  induction l with
  | nil => simp [insertAssoc, lookupKey]
  | cons p rest ih =>
    obtain ⟨k', w⟩ := p
    by_cases hk : k' = k
    · simp [insertAssoc, hk, lookupKey]
    · simp [insertAssoc, hk, lookupKey, ih]

theorem mem_insertAssoc_map_fst {T : Type} {l : List (Int × T)} {k x : Int} {v : T}
    (h : x ∈ (insertAssoc l k v).map Prod.fst) : x ∈ l.map Prod.fst ∨ x = k := by
  induction l with
  | nil =>
    simp only [insertAssoc, List.map_cons, List.map_nil, List.mem_singleton] at h
    exact Or.inr h
  | cons p rest ih =>
    obtain ⟨k', w⟩ := p
    by_cases hk : k' = k
    · subst hk
      simp only [insertAssoc, if_pos rfl, List.map_cons] at h
      rcases List.mem_cons.mp h with h1 | h1
      · exact Or.inr h1
      · exact Or.inl (by
          simp only [List.map_cons]
          exact List.mem_cons.mpr (Or.inr h1))
    · simp only [insertAssoc, if_neg hk, List.map_cons, List.mem_cons] at h
      rcases h with h | h
      · exact Or.inl (by simp [h])
      · rcases ih h with h' | h'
        · exact Or.inl (by simp [h'])
        · exact Or.inr h'

theorem insertAssoc_map_fst_of_not_mem {T : Type} {l : List (Int × T)} {k : Int} (v : T)
    (h : k ∉ l.map Prod.fst) :
    (insertAssoc l k v).map Prod.fst = l.map Prod.fst ++ [k] := by
  induction l with
  | nil => simp [insertAssoc]
  | cons p rest ih =>
    obtain ⟨k', w⟩ := p
    have hk : k' ≠ k := by
      intro hkk; exact h (by simp [hkk])
    have hrest : k ∉ rest.map Prod.fst := fun hm => h (by simp [hm])
    simp [insertAssoc, hk, ih hrest]

theorem replaceValueAt_map_fst {T : Type} (l : List (Int × T)) (k : Int) (x : T) :
    (replaceValueAt l k x).map Prod.fst = l.map Prod.fst := by
  induction l with
  | nil => rfl
  | cons p rest ih =>
    obtain ⟨k', w⟩ := p
    by_cases hk : k' = k
    · simp only [replaceValueAt, if_pos hk, List.map_cons, ih]
    · simp only [replaceValueAt, if_neg hk, List.map_cons, ih]

theorem lookupKey_replaceValueAt_self {T : Type} {l : List (Int × T)} {k : Int} {t : T} (x : T)
    (h : lookupKey l k = some t) :
    lookupKey (replaceValueAt l k x) k = some x := by
  induction l with
  | nil => simp [lookupKey] at h
  | cons p rest ih =>
    obtain ⟨k', w⟩ := p
    by_cases hk : k' = k
    · simp only [replaceValueAt, if_pos hk, lookupKey, if_pos hk]
    · simp only [lookupKey, if_neg hk] at h
      simp only [replaceValueAt, if_neg hk, lookupKey, if_neg hk]
      exact ih h

theorem lookupKey_replaceValueAt_ne {T : Type} (l : List (Int × T)) {k k' : Int} (x : T)
    (h : k' ≠ k) :
    lookupKey (replaceValueAt l k x) k' = lookupKey l k' := by
  induction l with
  | nil => rfl
  | cons p rest ih =>
    obtain ⟨k0, w⟩ := p
    by_cases hk : k0 = k
    · have hk0 : ¬k0 = k' := fun hh => h (hh ▸ hk)
      simp only [replaceValueAt, if_pos hk, lookupKey, if_neg hk0]
      exact ih
    · by_cases hk' : k0 = k'
      · simp only [replaceValueAt, if_neg hk, lookupKey, if_pos hk']
      · simp only [replaceValueAt, if_neg hk, lookupKey, if_neg hk']
        exact ih

theorem findSome?_filterMap_eq {α β γ : Type} (g : α → Option β) (f : β → Option γ) :
    ∀ l : List α, (l.filterMap g).findSome? f = l.findSome? fun a => (g a).bind f
  | [] => rfl
  | a :: l => by
    cases hg : g a with
    | none =>
      simp only [List.filterMap_cons, hg, List.findSome?_cons, Option.none_bind]
      exact findSome?_filterMap_eq g f l
    | some b =>
      cases hf : f b with
      | none =>
        simp only [List.filterMap_cons, hg, List.findSome?_cons, hf, Option.some_bind]
        exact findSome?_filterMap_eq g f l
      | some c =>
        simp [List.filterMap_cons, hg, List.findSome?_cons, hf]

theorem findSome?_sorted_min {U : Type} (g : Int → Option U) (u : U) :
    ∀ (ks : List Int) (k0 : Int), ks.Sorted (· ≤ ·) → k0 ∈ ks → g k0 = some u →
      (∀ k, k < k0 → g k = Option.none) → ks.findSome? g = some u
  | [], k0, _, hmem, _, _ => by simp at hmem
  | a :: ks, k0, hsorted, hmem, hk0, hlow => by
    by_cases ha : a = k0
    · subst ha
      simp [List.findSome?_cons, hk0]
    · have hk0t : k0 ∈ ks := by
        rcases List.mem_cons.mp hmem with h | h
        · exact absurd h.symm ha
        · exact h
      have hle : a ≤ k0 := (List.sorted_cons.mp hsorted).1 k0 hk0t
      have halt : a < k0 := lt_of_le_of_ne hle ha
      have hga : g a = Option.none := hlow a halt
      simp only [List.findSome?_cons, hga]
      exact findSome?_sorted_min g u ks k0 (List.sorted_cons.mp hsorted).2 hk0t hk0 hlow

theorem PriorityProvider.map_first_eq_of_min {T U : Type} (pp : PriorityProvider T)
    (f : T → Option U) (k0 : Int) (t0 : T) (u : U)
    (hl : lookupKey pp.providers k0 = some t0)
    (hf : f t0 = some u)
    (hlow : ∀ k t, lookupKey pp.providers k = some t → k < k0 → f t = Option.none) :
    pp.map_first f = some u := by
  unfold PriorityProvider.map_first PriorityProvider.iterItems
  rw [findSome?_filterMap_eq]
  apply findSome?_sorted_min _ u _ k0
  · exact List.sorted_insertionSort _ _
  · exact ((List.perm_insertionSort (· ≤ ·) _).mem_iff).mpr (lookupKey_mem hl)
  · rw [hl]; simpa using hf
  · intro k hk
    cases hlk : lookupKey pp.providers k with
    | none => rfl
    | some t => simpa using hlow k t hlk hk

theorem PriorityProvider.firstKeyMatching_spec {T : Type} (pp : PriorityProvider T)
    (pred : T → Bool) (k : Int)
    (h : pp.firstKeyMatching pred = some k) :
    ∃ t, lookupKey pp.providers k = some t ∧ pred t = true := by
  have hp := List.find?_some h
  cases hlk : lookupKey pp.providers k with
  | none => rw [hlk] at hp; simp at hp
  | some t =>
    rw [hlk] at hp
    exact ⟨t, rfl, hp⟩

end ScriptHerder

namespace ScriptHerder

/-! Lemmas about document reads and writes. -/

theorem getField_insertField (fs : List (String × JValue)) (key : String) (v : JValue) :
    getField (insertField fs key v) key = some v := by
  induction fs with
  | nil => simp [insertField, getField]
  | cons p rest ih =>
    obtain ⟨k, w⟩ := p
    by_cases hk : k = key
    · simp only [insertField, if_pos hk, getField, if_pos hk]
    · simp only [insertField, if_neg hk, getField, if_neg hk]
      exact ih

theorem ConfigJson.get_value_of_data_get {c : ConfigJson} {d : JValue} {key : String}
    {v : JValue} (hd : c.data = some d) (hg : d.get key = some v) (hv : v ≠ JValue.null) :
    c.get_value key = some v := by
  unfold ConfigJson.get_value
  rw [hd]
  show (match d.get key with
        | some JValue.null => Option.none
        | some v => some v
        | Option.none => Option.none) = some v
  rw [hg]
  cases v with
  | null => exact absurd rfl hv
  | bool b => rfl
  | num n => rfl
  | str s => rfl
  | arr items => rfl
  | obj fields => rfl

theorem ConfigJson.set_value_flags {c c' : ConfigJson} {key : String} {v : JValue}
    (h : c.set_value key v = some c') :
    c'.can_write = c.can_write ∧ c'.is_synced = false ∧ c'.io = c.io := by
  cases hd : c.data with
  | none =>
    simp only [ConfigJson.set_value, hd, Option.some.injEq] at h
    subst h
    exact ⟨rfl, rfl, rfl⟩
  | some d =>
    simp only [ConfigJson.set_value, hd] at h
    cases hset : d.indexSet key v with
    | none => rw [hset] at h; simp at h
    | some d' =>
      rw [hset] at h
      simp only [Option.map_some', Option.some.injEq] at h
      subst h
      exact ⟨rfl, rfl, rfl⟩

theorem ConfigJson.get_value_set_value {c c' : ConfigJson} {key : String} {v : JValue}
    (hv : v ≠ JValue.null) (h : c.set_value key v = some c') :
    c'.get_value key = some v := by
  cases hd : c.data with
  | none =>
    simp only [ConfigJson.set_value, hd, Option.some.injEq] at h
    subst h
    exact ConfigJson.get_value_of_data_get rfl (by simp [JValue.get, getField]) hv
  | some d =>
    simp only [ConfigJson.set_value, hd] at h
    cases hset : d.indexSet key v with
    | none => rw [hset] at h; simp at h
    | some d' =>
      rw [hset] at h
      simp only [Option.map_some', Option.some.injEq] at h
      subst h
      have hg : d'.get key = some v := by
        unfold JValue.indexSet at hset
        cases d with
        | null =>
          simp only [Option.some.injEq] at hset
          subst hset
          simp [JValue.get, getField]
        | obj fields =>
          simp only [Option.some.injEq] at hset
          subst hset
          simp [JValue.get, getField_insertField]
        | bool b => simp at hset
        | num n => simp at hset
        | str s => simp at hset
        | arr items => simp at hset
      exact ConfigJson.get_value_of_data_get rfl hg hv

theorem Config.getString_of_get_value_none {c : Config} {envm : EnvMap} {key : String}
    (h : c.get_value envm key = Option.none) : c.getString envm key = Option.none := by
  cases c with
  | json src =>
    have h' : src.get_value key = Option.none := h
    simp only [Config.getString, ConfigJson.getString, ConfigJson.getTyped, h']
  | env src =>
    have h' : src.get_value envm key = Option.none := by
      have hm : (src.get_value envm key).map JValue.str = Option.none := h
      cases hvv : src.get_value envm key with
      | none => rfl
      | some s => rw [hvv] at hm; simp at hm
    simp only [Config.getString, ConfigEnv.getString, ConfigEnv.get, h']
  | none => rfl

theorem Config.getString_of_get_value_str {c : Config} {envm : EnvMap} {key : String}
    {s : String} (h : c.get_value envm key = some (JValue.str s)) :
    c.getString envm key = some s := by
  cases c with
  | json src =>
    have h' : src.get_value key = some (JValue.str s) := h
    simp only [Config.getString, ConfigJson.getString, ConfigJson.getTyped, h']
    rfl
  | env src =>
    have h' : src.get_value envm key = some s := by
      have hm : (src.get_value envm key).map JValue.str = some (JValue.str s) := h
      cases hvv : src.get_value envm key with
      | none => rw [hvv] at hm; simp at hm
      | some s' =>
        rw [hvv] at hm
        simp only [Option.map_some', Option.some.injEq] at hm
        injection hm with h2
        rw [h2]
    simp only [Config.getString, ConfigEnv.getString, ConfigEnv.get, h']
    rfl
  | none => simp [Config.get_value] at h

/-! The sync traversal visits each key once, so its outcome sequence is the
per-source decision applied to the untouched sources in ascending order. -/

theorem syncFold_snd (ks : List Int) (l : List (Int × Config)) (hnd : ks.Nodup) :
    (syncFold ks l).2 = ks.filterMap fun k => (lookupKey l k).bind Config.syncOutcome := by
  induction ks generalizing l with
  | nil => rfl
  | cons k ks ih =>
    have hk : k ∉ ks := (List.nodup_cons.mp hnd).1
    have hnd' : ks.Nodup := (List.nodup_cons.mp hnd).2
    have hrepl : ∀ x : Config,
        (ks.filterMap fun k2 => (lookupKey (replaceValueAt l k x) k2).bind Config.syncOutcome)
          = ks.filterMap fun k2 => (lookupKey l k2).bind Config.syncOutcome := by
      intro x
      apply List.filterMap_congr
      intro k2 hk2
      rw [lookupKey_replaceValueAt_ne]
      intro he
      exact hk (he ▸ hk2)
    cases hl : lookupKey l k with
    | none =>
      simp only [syncFold, hl]
      rw [ih _ hnd']
      simp [List.filterMap_cons, hl]
    | some c =>
      cases c with
      | json src =>
        cases hsy : src.is_synced with
        | true =>
          have hstep : (syncFold (k :: ks) l).2 = (syncFold ks l).2 := by
            simp [syncFold, hl, hsy]
          have h0 : (lookupKey l k).bind Config.syncOutcome = Option.none := by
            rw [hl]
            simp [Config.syncOutcome, hsy]
          rw [hstep, ih _ hnd', List.filterMap_cons, h0]
        | false =>
          cases hcw : src.can_write with
          | false =>
            have hstep : (syncFold (k :: ks) l).2 = (syncFold ks l).2 := by
              simp [syncFold, hl, hsy, hcw]
            have h0 : (lookupKey l k).bind Config.syncOutcome = Option.none := by
              rw [hl]
              simp [Config.syncOutcome, hsy, hcw]
            rw [hstep, ih _ hnd', List.filterMap_cons, h0]
          | true =>
            cases hsave : src.save with
            | ok src' =>
              have hstep : (syncFold (k :: ks) l).2
                  = Except.ok () :: (syncFold ks (replaceValueAt l k (Config.json src'))).2 := by
                simp [syncFold, hl, hsy, hcw, hsave]
              have h0 : (lookupKey l k).bind Config.syncOutcome = some (Except.ok ()) := by
                rw [hl]
                simp [Config.syncOutcome, hsy, hcw, hsave]
              rw [hstep, ih _ hnd', hrepl, List.filterMap_cons, h0]
            | error e =>
              have hstep : (syncFold (k :: ks) l).2
                  = Except.error e :: (syncFold ks l).2 := by
                simp [syncFold, hl, hsy, hcw, hsave]
              have h0 : (lookupKey l k).bind Config.syncOutcome = some (Except.error e) := by
                rw [hl]
                simp [Config.syncOutcome, hsy, hcw, hsave]
              rw [hstep, ih _ hnd', List.filterMap_cons, h0]
      | env e =>
        simp only [syncFold, hl]
        rw [ih _ hnd']
        simp [List.filterMap_cons, hl, Config.syncOutcome]
      | none =>
        simp only [syncFold, hl]
        rw [ih _ hnd']
        simp [List.filterMap_cons, hl, Config.syncOutcome]

theorem ConfigProvider.sync_snd (cp : ConfigProvider)
    (h : (cp.providers.providers.map Prod.fst).Nodup) :
    (cp.sync).2 = cp.providers.sortedKeys.filterMap
      fun k => (lookupKey cp.providers.providers k).bind Config.syncOutcome := by
  have hnd : cp.providers.sortedKeys.Nodup :=
    ((List.perm_insertionSort (· ≤ ·) _).nodup_iff).mpr h
  exact syncFold_snd _ _ hnd

end ScriptHerder

namespace ScriptHerder

/-! Claim C2: synced-flag transitions of ConfigJson. -/

/-- C2 counterexample: a successful load does not make the synced flag true.
A fresh writable document backed by the in-memory text of an empty object
loads successfully, yet its synced flag stays false (ConfigJson::load never
touches is_synced; only from_data sets it, after the load). -/
theorem C2_counterexample :
    (ConfigJson.new (.data "\x7b\x7d") true).load
      = .ok ⟨.data "\x7b\x7d", some (.obj []), true, false⟩
    ∧ (⟨ConfigIo.data "\x7b\x7d", some (JValue.obj []), true, false⟩ : ConfigJson).is_synced
      = false :=
  ⟨rfl, rfl⟩

/-- C2 (amended): the synced flag becomes false after any successful set
(typed sets go through set_value); a successful load leaves the flag
unchanged rather than setting it true (from_data, not load, is what sets it
for in-memory documents); a successful save that serialized data sets it
true, while a data-less save succeeds leaving the document untouched; a
document with canWrite = false rejects save with an error, returning no new
state at all. -/
theorem C2_theorem :
    (∀ (c c' : ConfigJson) (K : String) (V : JValue),
        c.set_value K V = some c' → c'.is_synced = false)
    ∧ (∀ c c' : ConfigJson, c.load = .ok c' → c'.is_synced = c.is_synced)
    ∧ (∀ c c' : ConfigJson, c.save = .ok c' → c.data.isSome → c'.is_synced = true)
    ∧ (∀ c c' : ConfigJson, c.save = .ok c' → c.data = Option.none → c' = c)
    ∧ (∀ c : ConfigJson, c.can_write = false → ∃ e, c.save = .error e) := by
  refine ⟨?_, ?_, ?_, ?_, ?_⟩
  · intro c c' K V h
    exact (ConfigJson.set_value_flags h).2.1
  · intro c c' h
    cases hr : c.io.read with
    | error e => simp [ConfigJson.load, hr] at h
    | ok content =>
      simp only [ConfigJson.load, hr] at h
      cases hp : parseJson content with
      | none => rw [hp] at h; simp at h
      | some v =>
        rw [hp] at h
        simp only [Except.ok.injEq] at h
        subst h
        rfl
  · intro c c' h hd
    cases hw : c.can_write with
    | false => simp [ConfigJson.save, hw] at h
    | true =>
      simp only [ConfigJson.save, hw, Bool.not_true, Bool.false_eq_true, if_false] at h
      cases hdd : c.data with
      | none => rw [hdd] at hd; simp at hd
      | some d =>
        simp only [hdd] at h
        cases hwr : c.io.write (renderVal d) with
        | ok io2 =>
          rw [hwr] at h
          simp only [Except.ok.injEq] at h
          subst h
          rfl
        | error e => rw [hwr] at h; simp at h
  · intro c c' h hd
    cases hw : c.can_write with
    | false => simp [ConfigJson.save, hw] at h
    | true =>
      simp only [ConfigJson.save, hw, Bool.not_true, Bool.false_eq_true, if_false, hd] at h
      simp only [Except.ok.injEq] at h
      exact h.symm
  · intro c h
    refine ⟨"Cannot write to this source", ?_⟩
    simp [ConfigJson.save, h]

/-- Concrete documents exercising the synced-flag transitions. -/
def docC2 : ConfigJson := ⟨.data "", some (.obj []), true, true⟩

/-- The document after setting key k. -/
def docC2set : ConfigJson := ⟨.data "", some (.obj [("k", JValue.str "v")]), true, false⟩

/-- An unloaded writable document backed by empty-object text. -/
def docC2pre : ConfigJson := ⟨.data "\x7b\x7d", Option.none, true, false⟩

/-- docC2pre after its load. -/
def docC2loadres : ConfigJson := ⟨.data "\x7b\x7d", some (.obj []), true, false⟩

/-- docC2set after its save. -/
def docC2savedres : ConfigJson :=
  ⟨.data "\x7b\"k\":\"v\"\x7d", some (.obj [("k", JValue.str "v")]), true, true⟩

/-- A non-writable document. -/
def docC2ro : ConfigJson := ⟨.data "", some (.obj []), false, true⟩

/-- C2 witness: each amended transition at a concrete document. -/
theorem C2_witness :
    docC2set.is_synced = false
    ∧ docC2loadres.is_synced = docC2pre.is_synced
    ∧ docC2savedres.is_synced = true
    ∧ (∃ e, docC2ro.save = .error e) :=
  ⟨C2_theorem.1 docC2 docC2set "k" (JValue.str "v") rfl,
   C2_theorem.2.1 docC2pre docC2loadres rfl,
   C2_theorem.2.2.1 docC2set docC2savedres rfl rfl,
   C2_theorem.2.2.2.2 docC2ro rfl⟩

/-! Claim C7: JSON null is indistinguishable from absence. -/

/-- C7: whenever the value stored at K is the JSON literal null, or K is
absent altogether, both the raw read and every typed read return nothing,
making the two situations indistinguishable. -/
theorem C7_theorem {α : Type} (c : ConfigJson) (K : String) (dec : JValue → Option α)
    (h : (c.data.bind fun d => d.get K) = some JValue.null
       ∨ (c.data.bind fun d => d.get K) = Option.none) :
    c.get_value K = Option.none ∧ c.getTyped dec K = Option.none := by
  have hraw : c.get_value K = Option.none := by
    cases hd : c.data with
    | none => simp [ConfigJson.get_value, hd]
    | some d =>
      rw [hd] at h
      have h' : d.get K = some JValue.null ∨ d.get K = Option.none := h
      cases hg : d.get K with
      | none => simp [ConfigJson.get_value, hd, hg]
      | some v =>
        rw [hg] at h'
        rcases h' with h' | h'
        · have hv : v = JValue.null := Option.some.inj h'
          subst hv
          simp [ConfigJson.get_value, hd, hg]
        · simp at h'
  exact ⟨hraw, by simp [ConfigJson.getTyped, hraw]⟩

/-- A document storing null at "key" and nothing at "other". -/
def docC7 : ConfigJson := ⟨.data "", some (.obj [("key", JValue.null)]), false, true⟩

/-- C7 witness: the law at a concrete document, for the stored-null key and
for an absent key. -/
theorem C7_witness :
    (docC7.get_value "key" = Option.none ∧ docC7.getTyped decodeString "key" = Option.none)
    ∧ (docC7.get_value "other" = Option.none
        ∧ docC7.getTyped decodeString "other" = Option.none) :=
  ⟨C7_theorem docC7 "key" decodeString (Or.inl rfl),
   C7_theorem docC7 "other" decodeString (Or.inr rfl)⟩

/-! Claim C9: set_value on arbitrary loaded roots. -/

/-- C9 counterexample: loading the valid JSON text "[1]" succeeds with an
array root, and set_value on that state hits serde_json's IndexMut panic
(modelled as none) instead of completing. -/
theorem C9_counterexample :
    (ConfigJson.new (.data "[1]") true).load
      = .ok ⟨.data "[1]", some (.arr [.num 1]), true, false⟩
    ∧ (⟨ConfigIo.data "[1]", some (JValue.arr [JValue.num 1]), true, false⟩
        : ConfigJson).set_value "k" (JValue.str "v") = Option.none :=
  ⟨rfl, rfl⟩

/-- C9 (amended): on a document whose root is absent, null, or an object —
the roots produced by loading object or null documents, or by any earlier
set — set_value completes for every key and value and leaves an object
root, so any further sequence of sets completes as well. -/
theorem C9_theorem (c : ConfigJson) (K : String) (V : JValue)
    (h : c.data = Option.none ∨ c.data = some JValue.null
       ∨ ∃ fs, c.data = some (JValue.obj fs)) :
    ∃ c' fs', c.set_value K V = some c' ∧ c'.data = some (JValue.obj fs') := by
  rcases h with h | h | ⟨fs, h⟩
  · refine ⟨{ c with data := some (.obj [(K, V)]), is_synced := false }, [(K, V)], ?_, rfl⟩
    simp [ConfigJson.set_value, h]
  · refine ⟨{ c with data := some (.obj [(K, V)]), is_synced := false }, [(K, V)], ?_, rfl⟩
    simp [ConfigJson.set_value, h, JValue.indexSet]
  · refine ⟨{ c with data := some (.obj (insertField fs K V)), is_synced := false },
      insertField fs K V, ?_, rfl⟩
    simp [ConfigJson.set_value, h, JValue.indexSet]

/-- C9 witness: the amended statement at a null-rooted document. -/
theorem C9_witness :
    ∃ c' fs',
      (⟨ConfigIo.data "null", some JValue.null, true, false⟩ : ConfigJson).set_value "k"
          (JValue.num 1) = some c'
      ∧ c'.data = some (JValue.obj fs') :=
  C9_theorem _ "k" (JValue.num 1) (Or.inr (Or.inl rfl))

end ScriptHerder

namespace ScriptHerder

/-! Claim C4: the first-match law. -/

/-- A read-only in-memory document holding one key K with a string value. -/
def docWithK (v : String) : ConfigJson :=
  ⟨.data "", some (.obj [("K", .str v)]), false, true⟩

/-- Three stacked documents probing the first-match law. -/
def c4cp : ConfigProvider :=
  ((ConfigProvider.new.register_default (.json (docWithK "y"))).register_default
      (.json (docWithK "x"))).register_default (.json (docWithK "y"))

/-- C4 counterexample: in a resolver with sources at keys 1, 2, 3 holding
K = "y", "x", "y", take S1 = the source at key 2 and S2 = the source at key
3. S1 sits at a strictly lower priority key than S2 and the two define K
with different values, yet the resolver read (raw and typed) returns "y" —
S2's value, not S1's — because the key-1 source shadows S1. -/
theorem C4_counterexample :
    lookupKey c4cp.providers.providers 2 = some (Config.json (docWithK "x"))
    ∧ lookupKey c4cp.providers.providers 3 = some (Config.json (docWithK "y"))
    ∧ ((2 : Int) < 3)
    ∧ (Config.json (docWithK "x")).get_value emptyEnv "K" = some (JValue.str "x")
    ∧ (Config.json (docWithK "y")).get_value emptyEnv "K" = some (JValue.str "y")
    ∧ JValue.str "x" ≠ JValue.str "y"
    ∧ c4cp.get_value emptyEnv "K" = some (JValue.str "y")
    ∧ c4cp.getString emptyEnv "K" = some "y" := by
  refine ⟨rfl, rfl, by decide, rfl, rfl, ?_, rfl, rfl⟩
  intro h
  injection h with h2
  exact absurd h2 (by decide)

/-- C4 (amended): the first-match law restricted to the case the claim's
counterexample forces — S1 must also be the highest-precedence source
defining K (no source at a strictly lower key defines it). Then the
resolver read returns S1's value and never S2's, raw as well as typed when
the value is a string. -/
theorem C4_theorem (envm : EnvMap) (cp : ConfigProvider) (K : String)
    (k1 k2 : Int) (S1 S2 : Config) (v1 v2 : JValue)
    (h1 : lookupKey cp.providers.providers k1 = some S1)
    (h2 : lookupKey cp.providers.providers k2 = some S2)
    (hk : k1 < k2)
    (hv1 : S1.get_value envm K = some v1)
    (hv2 : S2.get_value envm K = some v2)
    (hne : v1 ≠ v2)
    (hlow : ∀ k S, lookupKey cp.providers.providers k = some S → k < k1 →
      S.get_value envm K = Option.none) :
    cp.get_value envm K = some v1
    ∧ cp.get_value envm K ≠ some v2
    ∧ (∀ s1, v1 = JValue.str s1 → cp.getString envm K = some s1) := by
  have hmain : cp.get_value envm K = some v1 :=
    PriorityProvider.map_first_eq_of_min cp.providers _ k1 S1 v1 h1 hv1
      fun k t hlk hkk => hlow k t hlk hkk
  refine ⟨hmain, ?_, ?_⟩
  · rw [hmain]
    intro hcontra
    exact hne (Option.some.inj hcontra)
  · intro s1 hs1
    subst hs1
    exact PriorityProvider.map_first_eq_of_min cp.providers _ k1 S1 s1 h1
      (Config.getString_of_get_value_str hv1)
      fun k t hlk hkk => Config.getString_of_get_value_none (hlow k t hlk hkk)

/-- A two-source stack with the higher-precedence source defining K. -/
def c4wcp : ConfigProvider :=
  (ConfigProvider.new.register_default (.json (docWithK "x"))).register_default
    (.json (docWithK "y"))

/-- C4 witness: the amended first-match law at the two-source stack. -/
theorem C4_witness :
    c4wcp.get_value emptyEnv "K" = some (JValue.str "x")
    ∧ c4wcp.getString emptyEnv "K" = some "x" := by
  have h := C4_theorem emptyEnv c4wcp "K" 1 2 (Config.json (docWithK "x"))
    (Config.json (docWithK "y")) (JValue.str "x") (JValue.str "y")
    rfl rfl (by decide) rfl rfl
    (by intro hh; injection hh with h2; exact absurd h2 (by decide))
    (by
      intro k S hls hkk
      have hm := lookupKey_mem hls
      have he : c4wcp.providers.providers.map Prod.fst = [1, 2] := rfl
      rw [he] at hm
      have : k = 1 ∨ k = 2 := by simpa using hm
      omega)
  exact ⟨h.1, h.2.2 "x" rfl⟩

/-! Claim C5: register_top outranks previously registered defaults. -/

/-- A sorted list whose minimum is m starts with m. -/
theorem sorted_head_eq_min (ks : List Int) (m : Int) (hs : ks.Sorted (· ≤ ·))
    (hm : m ∈ ks) (hall : ∀ k ∈ ks, m ≤ k) : ks.head? = some m := by
  cases ks with
  | nil => simp at hm
  | cons a t =>
    have hma : m ≤ a := hall a (by simp)
    have ham : a ≤ m := by
      rcases List.mem_cons.mp hm with h | h
      · exact le_of_eq h.symm
      · exact (List.sorted_cons.mp hs).1 m h
    have : a = m := le_antisymm ham hma
    simp [this]

/-- Registering defaults on a resolver whose collection satisfies the
fresh-start invariant (lowest tracker 0, upper tracker nonnegative, all
keys in [1, upper]) preserves that invariant. -/
theorem foldl_register_default_inv (cs : List Config) (cp : ConfigProvider)
    (h0 : cp.providers.lowest_priority = 0)
    (h1 : 0 ≤ cp.providers.upper_priority)
    (h2 : ∀ k ∈ cp.providers.providers.map Prod.fst,
        1 ≤ k ∧ k ≤ cp.providers.upper_priority) :
    (cs.foldl ConfigProvider.register_default cp).providers.lowest_priority = 0
    ∧ 0 ≤ (cs.foldl ConfigProvider.register_default cp).providers.upper_priority
    ∧ ∀ k ∈ (cs.foldl ConfigProvider.register_default cp).providers.providers.map Prod.fst,
        1 ≤ k ∧ k ≤ (cs.foldl ConfigProvider.register_default cp).providers.upper_priority := by
  induction cs generalizing cp with
  | nil => exact ⟨h0, h1, h2⟩
  | cons c cs ih =>
    simp only [List.foldl_cons]
    apply ih
    · show (cp.providers.set_at (cp.providers.upper_priority + 1) c).lowest_priority = 0
      simp only [PriorityProvider.set_at]
      rw [h0, if_neg (by omega)]
    · show 0 ≤ (cp.providers.set_at (cp.providers.upper_priority + 1) c).upper_priority
      simp only [PriorityProvider.set_at]
      rw [if_pos (by omega)]
      omega
    · intro k hm
      show 1 ≤ k ∧ k ≤ (cp.providers.set_at (cp.providers.upper_priority + 1) c).upper_priority
      have hm' : k ∈ (insertAssoc cp.providers.providers
          (cp.providers.upper_priority + 1) c).map Prod.fst := hm
      simp only [PriorityProvider.set_at]
      rw [if_pos (by omega)]
      rcases mem_insertAssoc_map_fst hm' with h | h
      · obtain ⟨hk1, hk2⟩ := h2 k h
        exact ⟨hk1, by omega⟩
      · subst h
        exact ⟨by omega, by omega⟩

/-- C5: after any sequence of register_default calls on a fresh resolver
followed by one register_top, the top source sits at priority key -1,
strictly below every default key (all defaults sit at keys ≥ 1), and is the
first item visited by the ascending-order iteration. -/
theorem C5_theorem (cs : List Config) (c : Config) :
    lookupKey ((cs.foldl ConfigProvider.register_default
        ConfigProvider.new).register_top c).providers.providers (-1) = some c
    ∧ (∀ k ∈ (cs.foldl ConfigProvider.register_default
        ConfigProvider.new).providers.providers.map Prod.fst, (-1 : Int) < k)
    ∧ ((cs.foldl ConfigProvider.register_default
        ConfigProvider.new).register_top c).providers.iterItems.head? = some c := by
  obtain ⟨hl0, hu0, hmem⟩ := foldl_register_default_inv cs ConfigProvider.new rfl
    (le_refl 0)
    (by intro k hk; simp [ConfigProvider.new, PriorityProvider.new] at hk)
  have hprov : ((cs.foldl ConfigProvider.register_default
      ConfigProvider.new).register_top c).providers.providers
      = insertAssoc (cs.foldl ConfigProvider.register_default
          ConfigProvider.new).providers.providers (-1) c := by
    simp only [ConfigProvider.register_top, PriorityProvider.add_top,
      PriorityProvider.set_at, hl0]
    norm_num
  have hlk : lookupKey ((cs.foldl ConfigProvider.register_default
      ConfigProvider.new).register_top c).providers.providers (-1) = some c := by
    rw [hprov]
    exact lookupKey_insertAssoc_self _ _ _
  have hgt : ∀ k ∈ (cs.foldl ConfigProvider.register_default
      ConfigProvider.new).providers.providers.map Prod.fst, (-1 : Int) < k := by
    intro k hk
    have := (hmem k hk).1
    omega
  refine ⟨hlk, hgt, ?_⟩
  have hnotmem : (-1 : Int) ∉ (cs.foldl ConfigProvider.register_default
      ConfigProvider.new).providers.providers.map Prod.fst := by
    intro hmm
    have := (hmem _ hmm).1
    omega
  have hkeys : (insertAssoc (cs.foldl ConfigProvider.register_default
      ConfigProvider.new).providers.providers (-1) c).map Prod.fst
      = (cs.foldl ConfigProvider.register_default
          ConfigProvider.new).providers.providers.map Prod.fst ++ [-1] :=
    insertAssoc_map_fst_of_not_mem _ hnotmem
  have hsorted := List.sorted_insertionSort (α := Int) (· ≤ ·)
    (((cs.foldl ConfigProvider.register_default
      ConfigProvider.new).register_top c).providers.providers.map Prod.fst)
  have hperm := List.perm_insertionSort (α := Int) (· ≤ ·)
    (((cs.foldl ConfigProvider.register_default
      ConfigProvider.new).register_top c).providers.providers.map Prod.fst)
  have hminmem : (-1 : Int) ∈ ((cs.foldl ConfigProvider.register_default
      ConfigProvider.new).register_top c).providers.sortedKeys := by
    unfold PriorityProvider.sortedKeys
    refine hperm.mem_iff.mpr ?_
    rw [hprov, hkeys]
    simp
  have hallge : ∀ k ∈ ((cs.foldl ConfigProvider.register_default
      ConfigProvider.new).register_top c).providers.sortedKeys, (-1 : Int) ≤ k := by
    intro k hk
    have hk2 : k ∈ ((cs.foldl ConfigProvider.register_default
        ConfigProvider.new).register_top c).providers.providers.map Prod.fst :=
      hperm.mem_iff.mp hk
    rw [hprov, hkeys] at hk2
    rcases List.mem_append.mp hk2 with h | h
    · have := (hmem k h).1
      omega
    · simp at h
      omega
  have hhead : ((cs.foldl ConfigProvider.register_default
      ConfigProvider.new).register_top c).providers.sortedKeys.head? = some (-1) :=
    sorted_head_eq_min _ _ hsorted hminmem hallge
  obtain ⟨rest, hrest⟩ : ∃ rest, ((cs.foldl ConfigProvider.register_default
      ConfigProvider.new).register_top c).providers.sortedKeys = -1 :: rest := by
    cases hsk : ((cs.foldl ConfigProvider.register_default
        ConfigProvider.new).register_top c).providers.sortedKeys with
    | nil => rw [hsk] at hhead; simp at hhead
    | cons a t =>
      rw [hsk] at hhead
      simp only [List.head?_cons, Option.some.injEq] at hhead
      exact ⟨t, by rw [hhead]⟩
  unfold PriorityProvider.iterItems
  rw [hrest, List.filterMap_cons, hlk]
  rfl

end ScriptHerder

namespace ScriptHerder

/-! Claim C6: the write-then-read round trip. -/

/-- A single writable in-memory document with an empty object root. -/
def c6doc : ConfigJson := ⟨.data "", some (.obj []), true, true⟩

/-- A resolver holding just c6doc. -/
def c6cp : ConfigProvider := ConfigProvider.new.register_default (.json c6doc)

/-- c6cp after writing JSON null at K. -/
def c6cpNull : ConfigProvider :=
  ⟨⟨[(1, Config.json ⟨.data "", some (.obj [("K", JValue.null)]), true, false⟩)], 0, 1⟩⟩

/-- C6 counterexample: writing the JSON literal null at K through a
resolver with one mutable document and no shadowing source succeeds, yet
reading K back returns nothing instead of the written value — the claim's
"for all value V" fails at V = null. -/
theorem C6_counterexample :
    c6cp.set_value "K" JValue.null = some c6cpNull
    ∧ c6cpNull.get_value emptyEnv "K" = Option.none
    ∧ c6cpNull.getString emptyEnv "K" = Option.none :=
  ⟨rfl, rfl, rfl⟩

/-- C6 (amended): write-then-read round-trips provided additionally that
the written value is not JSON null and that the write completes without
panicking (it does whenever the routed-to document's root is an object or
unloaded): if the first JSON source sits at key kj, no source at a strictly
lower key defines K, and set_value returns an updated resolver, then
reading K back returns V. -/
theorem C6_theorem (envm : EnvMap) (cp cp' : ConfigProvider) (K : String) (V : JValue)
    (kj : Int)
    (hV : V ≠ JValue.null)
    (hfirst : cp.providers.firstKeyMatching Config.isJson = some kj)
    (hlow : ∀ k S, lookupKey cp.providers.providers k = some S → k < kj →
      S.get_value envm K = Option.none)
    (hset : cp.set_value K V = some cp') :
    cp'.get_value envm K = some V := by
  obtain ⟨t, hlk, hpred⟩ := PriorityProvider.firstKeyMatching_spec _ _ _ hfirst
  cases t with
  | env e => simp [Config.isJson] at hpred
  | none => simp [Config.isJson] at hpred
  | json src =>
    simp only [ConfigProvider.set_value, hfirst, hlk] at hset
    cases hsv : src.set_value K V with
    | none => rw [hsv] at hset; simp at hset
    | some src' =>
      rw [hsv] at hset
      simp only [Option.some.injEq] at hset
      subst hset
      unfold ConfigProvider.get_value
      apply PriorityProvider.map_first_eq_of_min _ _ kj (Config.json src') V
      · exact lookupKey_replaceValueAt_self _ hlk
      · exact ConfigJson.get_value_set_value hV hsv
      · intro k t hlkr hkk
        have hne : k ≠ kj := by omega
        rw [lookupKey_replaceValueAt_ne _ _ hne] at hlkr
        exact hlow k t hlkr hkk

/-- c6cp after writing "v" at K. -/
def c6cpStr : ConfigProvider :=
  ⟨⟨[(1, Config.json ⟨.data "", some (.obj [("K", JValue.str "v")]), true, false⟩)], 0, 1⟩⟩

/-- C6 witness: the amended round trip at a one-document resolver. -/
theorem C6_witness :
    c6cp.set_value "K" (JValue.str "v") = some c6cpStr
    ∧ c6cpStr.get_value emptyEnv "K" = some (JValue.str "v") := by
  refine ⟨rfl, ?_⟩
  refine C6_theorem emptyEnv c6cp c6cpStr "K" (JValue.str "v") 1
    (fun hh => JValue.noConfusion hh) rfl ?_ rfl
  intro k S hls hkk
  have hm := lookupKey_mem hls
  have he : c6cp.providers.providers.map Prod.fst = [1] := rfl
  rw [he] at hm
  have hk1 : k = 1 := by simpa using hm
  omega

/-! Claim C10: writes against a read-only first JSON source. -/

/-- The document produced by from_data on empty-object text: read-only and
synced. -/
def c10doc : ConfigJson := ⟨.data "\x7b\x7d", some (.obj []), false, true⟩

/-- A resolver whose only (hence first) JSON source is the read-only
in-memory document. -/
def c10cp : ConfigProvider := ConfigProvider.new.register_default (.json c10doc)

/-- c10cp after writing JSON null at K. -/
def c10cpNull : ConfigProvider :=
  ⟨⟨[(1, Config.json ⟨.data "\x7b\x7d", some (.obj [("K", JValue.null)]), false, false⟩)],
    0, 1⟩⟩

/-- C10 counterexample: with the read-only from_data document as the first
JSON source, set(K, null) does mutate it, but the subsequent read of K
returns nothing rather than the written value — the claim's universally
quantified "a subsequent read of K returns V" fails at V = null. -/
theorem C10_counterexample :
    ConfigJson.from_data "\x7b\x7d" = .ok c10doc
    ∧ c10cp.set_value "K" JValue.null = some c10cpNull
    ∧ c10cpNull.get_value emptyEnv "K" = Option.none :=
  ⟨rfl, rfl, rfl⟩

/-- C10 (amended): if the first JSON source (at key kj, document dj) has
canWrite = false, the written value is not JSON null, the write completes
without panicking, and no source at a strictly lower key defines K, then
set(K, V) still mutates that source — it now stores V, stays non-writable,
and the resolver read returns V — while the per-source sync decision for
the mutated document contributes no outcome, so the value is never
persisted. -/
theorem C10_theorem (envm : EnvMap) (cp cp' : ConfigProvider) (K : String) (V : JValue)
    (kj : Int) (dj dj' : ConfigJson)
    (hV : V ≠ JValue.null)
    (hfirst : cp.providers.firstKeyMatching Config.isJson = some kj)
    (hdoc : lookupKey cp.providers.providers kj = some (.json dj))
    (hro : dj.can_write = false)
    (hdset : dj.set_value K V = some dj')
    (hlow : ∀ k S, lookupKey cp.providers.providers k = some S → k < kj →
      S.get_value envm K = Option.none)
    (hset : cp.set_value K V = some cp') :
    lookupKey cp'.providers.providers kj = some (.json dj')
    ∧ dj'.get_value K = some V
    ∧ dj'.can_write = false
    ∧ cp'.get_value envm K = some V
    ∧ Config.syncOutcome (.json dj') = Option.none := by
  simp only [ConfigProvider.set_value, hfirst, hdoc, hdset] at hset
  simp only [Option.some.injEq] at hset
  subst hset
  have hcw' : dj'.can_write = false := by
    rw [(ConfigJson.set_value_flags hdset).1, hro]
  refine ⟨?_, ConfigJson.get_value_set_value hV hdset, hcw', ?_, ?_⟩
  · exact lookupKey_replaceValueAt_self _ hdoc
  · unfold ConfigProvider.get_value
    apply PriorityProvider.map_first_eq_of_min _ _ kj (Config.json dj') V
    · exact lookupKey_replaceValueAt_self _ hdoc
    · exact ConfigJson.get_value_set_value hV hdset
    · intro k t hlkr hkk
      have hne : k ≠ kj := by omega
      rw [lookupKey_replaceValueAt_ne _ _ hne] at hlkr
      exact hlow k t hlkr hkk
  · simp [Config.syncOutcome, hcw']

/-- The read-only document after the in-memory write of "v". -/
def c10docStr : ConfigJson :=
  ⟨.data "\x7b\x7d", some (.obj [("K", JValue.str "v")]), false, false⟩

/-- c10cp after writing "v" at K. -/
def c10cpStr : ConfigProvider := ⟨⟨[(1, Config.json c10docStr)], 0, 1⟩⟩

/-- C10 witness: the amended statement at the from_data resolver, plus the
concrete observation that its sync produces no outcomes at all. -/
theorem C10_witness :
    (lookupKey c10cpStr.providers.providers 1 = some (.json c10docStr)
      ∧ c10docStr.get_value "K" = some (JValue.str "v")
      ∧ c10docStr.can_write = false
      ∧ c10cpStr.get_value emptyEnv "K" = some (JValue.str "v")
      ∧ Config.syncOutcome (.json c10docStr) = Option.none)
    ∧ (c10cpStr.sync).2 = [] := by
  refine ⟨?_, rfl⟩
  exact C10_theorem emptyEnv c10cp c10cpStr "K" (JValue.str "v") 1 c10doc c10docStr
    (fun hh => JValue.noConfusion hh) rfl rfl rfl rfl
    (by
      intro k S hls hkk
      have hm := lookupKey_mem hls
      have he : c10cp.providers.providers.map Prod.fst = [1] := rfl
      rw [he] at hm
      have hk1 : k = 1 := by simpa using hm
      omega)
    rfl

end ScriptHerder

namespace ScriptHerder

/-! Claim C1: sync outcomes for a three-document resolver. -/

/-- The from_file result on an existing empty-object file: loaded, writable,
and — because load never touches is_synced — still marked unsynced. -/
def c1loadedDoc : ConfigJson := ⟨.file (some "\x7b\x7d") true, some (.obj []), true, false⟩

/-- A writable modified document. -/
def c1modDoc : ConfigJson := ⟨.data "", some (.obj [("k", JValue.str "v")]), true, false⟩

/-- The read-only from_data document. -/
def c1roDoc : ConfigJson := ⟨.data "\x7b\x7d", some (.obj []), false, true⟩

/-- The claim's three-source resolver, its writable unmodified document
fresh from its load. -/
def c1cp : ConfigProvider :=
  ((ConfigProvider.new.register_default (.json c1loadedDoc)).register_default
      (.json c1modDoc)).register_default (.json c1roDoc)

/-- C1 counterexample: a writable document that was just loaded and never
modified still carries is_synced = false (load does not set the flag), so
sync saves it as well: the resolver holding it plus one modified and one
read-only document returns two outcomes, not exactly one. -/
theorem C1_counterexample :
    ConfigJson.from_file (some "\x7b\x7d") true = .ok c1loadedDoc
    ∧ c1loadedDoc.is_synced = false
    ∧ ConfigJson.from_data "\x7b\x7d" = .ok c1roDoc
    ∧ (c1cp.sync).2.length = 2 :=
  ⟨rfl, rfl, rfl, rfl⟩

/-- C1 (amended): for a resolver holding exactly three JSON sources — one
writable document whose synced flag is set (as a document is after a save;
a freshly loaded one does not qualify, load leaving the flag false), one
writable document with the flag clear, and one non-writable document —
sync() returns exactly one outcome, the result of saving the modified
document; the synced and the non-writable documents contribute nothing. -/
theorem C1_theorem (d1 d2 d3 : ConfigJson)
    (h1w : d1.can_write = true) (h1s : d1.is_synced = true)
    (h2w : d2.can_write = true) (h2s : d2.is_synced = false)
    (h3w : d3.can_write = false) :
    ((((ConfigProvider.new.register_default (.json d1)).register_default
        (.json d2)).register_default (.json d3)).sync).2
      = (Config.syncOutcome (Config.json d2)).toList
    ∧ (Config.syncOutcome (Config.json d2)).isSome = true
    ∧ Config.syncOutcome (Config.json d1) = Option.none
    ∧ Config.syncOutcome (Config.json d3) = Option.none := by
  have ho2 : Config.syncOutcome (Config.json d2)
      = some (match d2.save with
              | Except.ok _ => Except.ok ()
              | Except.error e => Except.error e) := by
    simp [Config.syncOutcome, h2s, h2w]
  have ho1 : Config.syncOutcome (Config.json d1) = Option.none := by
    simp [Config.syncOutcome, h1s]
  have ho3 : Config.syncOutcome (Config.json d3) = Option.none := by
    simp [Config.syncOutcome, h3w]
  have hprov : (((ConfigProvider.new.register_default (.json d1)).register_default
      (.json d2)).register_default (.json d3)).providers.providers
      = [(1, Config.json d1), (2, Config.json d2), (3, Config.json d3)] := rfl
  have hsk : (((ConfigProvider.new.register_default (.json d1)).register_default
      (.json d2)).register_default (.json d3)).providers.sortedKeys = [1, 2, 3] := rfl
  refine ⟨?_, by rw [ho2]; rfl, ho1, ho3⟩
  have hnodup : ((((ConfigProvider.new.register_default (.json d1)).register_default
      (.json d2)).register_default (.json d3)).providers.providers.map Prod.fst).Nodup := by
    rw [hprov]
    show ([1, 2, 3] : List Int).Nodup
    decide
  rw [ConfigProvider.sync_snd _ hnodup, hsk, hprov]
  simp only [List.filterMap_cons, List.filterMap_nil, lookupKey]
  norm_num
  rw [ho1, ho2, ho3]
  rfl

/-- A writable synced document, the state a save leaves behind. -/
def c1syncedDoc : ConfigJson := ⟨.data "", some (.obj []), true, true⟩

/-- C1 witness: the amended statement at concrete documents. -/
theorem C1_witness :
    ((((ConfigProvider.new.register_default (.json c1syncedDoc)).register_default
        (.json c1modDoc)).register_default (.json c1roDoc)).sync).2
      = (Config.syncOutcome (Config.json c1modDoc)).toList
    ∧ (Config.syncOutcome (Config.json c1modDoc)).isSome = true
    ∧ Config.syncOutcome (Config.json c1syncedDoc) = Option.none
    ∧ Config.syncOutcome (Config.json c1roDoc) = Option.none :=
  C1_theorem c1syncedDoc c1modDoc c1roDoc rfl rfl rfl rfl rfl

/-! Claim C3: the environment-variable naming convention. -/

/-- A machine-scope document defining core.log.level = "error". -/
def machineDocC3 : ConfigJson :=
  ⟨.data "", some (.obj [("core.log.level", JValue.str "error")]), true, false⟩

/-- The bootstrap state of the scenario: the machine document registered as
a default, then use_env layering the SH_-prefixed environment source on
top. -/
def appC3 : AppConfig :=
  AppConfig.use_env ⟨ConfigProvider.new.register_default (.json machineDocC3),
    parsePath "/home/u/.config-sh.json"⟩

/-- The environment of the claim's scenario: SH_core.log.level = trace. -/
def envC3bad : EnvMap :=
  fun k => if k = "SH_core.log.level" then some "trace" else Option.none

/-- C3 counterexample: the registered prefixing string is "SH_" and get_key
inserts another underscore, so key core.log.level is served by the variable
SH__core.log.level, not SH_core.log.level; with SH_core.log.level=trace set
and the machine file defining core.log.level = "error", the read returns
"error", not "trace". -/
theorem C3_counterexample :
    (ConfigEnv.mk true (some "SH_")).get_key "core.log.level" ≠ "SH_core.log.level"
    ∧ appC3.provider.get_value envC3bad "core.log.level" = some (JValue.str "error")
    ∧ appC3.provider.getString envC3bad "core.log.level" = some "error" :=
  ⟨by decide, rfl, rfl⟩

/-- C3 (amended): the variable consulted is the stored prefixing string,
an underscore, and the key — for the bootstrap's SH_ prefix that is
SH__core.log.level, with two underscores. With that variable set to trace,
the environment source registered on top of a machine document defining
core.log.level = "error" makes the read return "trace". -/
theorem C3_theorem (envm : EnvMap)
    (h : envm "SH__core.log.level" = some "trace") :
    (ConfigEnv.mk true (some "SH_")).get_key "core.log.level" = "SH__core.log.level"
    ∧ appC3.provider.get_value envm "core.log.level" = some (JValue.str "trace")
    ∧ appC3.provider.getString envm "core.log.level" = some "trace" := by
  have hkey : (ConfigEnv.mk true (some "SH_")).get_key "core.log.level"
      = "SH__core.log.level" := by decide
  have henv : (ConfigEnv.mk true (some "SH_")).get_value envm "core.log.level"
      = some "trace" := by
    show (if true = true
        then envm ((ConfigEnv.mk true (some "SH_")).get_key "core.log.level")
        else Option.none) = some "trace"
    rw [if_pos rfl, hkey, h]
  have hit : appC3.provider.providers.iterItems
      = [Config.env (ConfigEnv.mk true (some "SH_")), Config.json machineDocC3] := rfl
  have hfe : (Config.env (ConfigEnv.mk true (some "SH_"))).get_value envm "core.log.level"
      = some (JValue.str "trace") := by
    show ((ConfigEnv.mk true (some "SH_")).get_value envm "core.log.level").map JValue.str
        = some (JValue.str "trace")
    rw [henv]
    rfl
  have hfs : (Config.env (ConfigEnv.mk true (some "SH_"))).getString envm "core.log.level"
      = some "trace" := by
    show (match (ConfigEnv.mk true (some "SH_")).get_value envm "core.log.level" with
          | some v => parseStringId v
          | Option.none => Option.none) = some "trace"
    rw [henv]
    rfl
  refine ⟨hkey, ?_, ?_⟩
  · show appC3.provider.providers.map_first
        (fun p => p.get_value envm "core.log.level") = some (JValue.str "trace")
    unfold PriorityProvider.map_first
    rw [hit]
    simp only [List.findSome?_cons, hfe]
  · show appC3.provider.providers.map_first
        (fun p => p.getString envm "core.log.level") = some "trace"
    unfold PriorityProvider.map_first
    rw [hit]
    simp only [List.findSome?_cons, hfs]

/-- The corrected environment: SH__core.log.level = trace. -/
def envC3good : EnvMap :=
  fun k => if k = "SH__core.log.level" then some "trace" else Option.none

/-- C3 witness: the amended scenario under the double-underscore variable. -/
theorem C3_witness :
    (ConfigEnv.mk true (some "SH_")).get_key "core.log.level" = "SH__core.log.level"
    ∧ appC3.provider.get_value envC3good "core.log.level" = some (JValue.str "trace")
    ∧ appC3.provider.getString envC3good "core.log.level" = some "trace" :=
  C3_theorem envC3good rfl

/-! Claim C8: relative project paths resolve against the machine file's
parent directory. -/

/-- The machine document of the scenario: core.repo.path = "../myrepo". -/
def machineDocC8 : ConfigJson :=
  ⟨.data "", some (.obj [("core.repo.path", JValue.str "../myrepo")]), true, false⟩

/-- C8: a relative stored project path is joined onto the machine config
file's parent directory — the resolution function takes no working
directory at all — and in the scenario with the machine file at
/home/u/.config-sh.json storing "../myrepo", the resolved PathBuf is
/home/u/../myrepo, which denotes the directory /home/myrepo. -/
theorem C8_theorem :
    (∀ (stored : String) (root_file : Path), (parsePath stored).is_relative = true →
        internal_get_repo_path (some stored) root_file
          = some ((root_file.parent.getD root_file).join (parsePath stored)))
    ∧ create_repo_config_path machineDocC8 (parsePath "/home/u/.config-sh.json")
        = some (parsePath "/home/u/../myrepo")
    ∧ (parsePath "/home/u/../myrepo").normalize = parsePath "/home/myrepo" := by
  refine ⟨?_, rfl, rfl⟩
  intro stored root_file hrel
  unfold internal_get_repo_path
  simp only [Option.map_some']
  rw [if_pos hrel]
  cases hp : root_file.parent with
  | none => simp [Option.getD]
  | some e => simp [Option.getD]

/-- C8 witness: the general resolution clause at a concrete relative path. -/
theorem C8_witness :
    internal_get_repo_path (some "../x") (parsePath "/a/b.json")
      = some (((parsePath "/a/b.json").parent.getD (parsePath "/a/b.json")).join
          (parsePath "../x")) :=
  C8_theorem.1 "../x" (parsePath "/a/b.json") rfl

end ScriptHerder
